import Mathlib

/-!
# Verification of the pprof plugin symbolization contracts

The repository's `internal/plugin/plugin.go` declares the plugin boundary of
the pprof driver: object-file inspection (`ObjFile`), symbolization
(`Symbolizer`, `MappingSources`), and disassembly (`ObjTool`).  The Go file
contains interface declarations and value types only; the behaviour those
interfaces must exhibit is given by the repository's specification of the
symbolization and object-file inspection subsystem.  This development embeds
the value types (`Sym`, `Frame`, `Inst`, `MappingSources`, `Options`) from the
source and models the missing operation bodies from the specification,
then proves the stated contracts.
-/

namespace Pprof

/-- Machine word modulus: Go addresses are `uint64`. -/
def u64Mod : Nat := 2 ^ 64

/-- A Frame describes a single line in a source file
(from `plugin.go`: `Frame { Func, File string; Line int }`). -/
structure Frame where
  func : String
  file : String
  line : Int
deriving Repr, DecidableEq

/-- A Sym describes a single symbol in an object file
(from `plugin.go`: `Sym { Name []string; File string; Start, End uint64 }`,
where `End` is the virtual address of the last byte in the symbol). -/
structure Sym where
  name : List String
  file : String
  start : Nat
  endAddr : Nat
deriving Repr, DecidableEq

/-- An Inst is a single instruction in an assembly listing
(from `plugin.go`: `Inst { Addr uint64; Text, Function, File string; Line int }`). -/
structure Inst where
  addr : Nat
  text : String
  function : String
  file : String
  line : Int
deriving Repr, DecidableEq

/-- Modelled from the spec: an `ObjectImage` (the state behind an opened
`ObjFile`).  The Go source declares only the `ObjFile` interface; the spec
describes an opened binary that owns a display name, a base address, a build
identifier, a line table (address to inlined frame chain, innermost first)
and a symbol table, and that may be unusable (failed open / bad format). -/
structure ObjFile where
  name : String
  base : Nat
  buildID : String
  usable : Bool
  lineTable : Nat → List Frame
  symtab : List Sym

/-- Modelled from the spec: `sourceLine(address)` on an opened image.  The Go
source declares only the signature `SourceLine(addr uint64) ([]Frame, error)`;
per the spec it returns the line-table frames (an empty sequence, not an
error, when no debug information exists for the address) and errors only
when the image itself is unusable. -/
def sourceLine (f : ObjFile) (addr : Nat) : Except String (List Frame) :=
  if f.usable then Except.ok (f.lineTable addr) else Except.error "image unusable"

/-- Name filter: the Go `Symbols` takes `r *regexp.Regexp` (nil means no
restriction); a symbol passes when any of its aliases matches.  The regular
expression is abstracted as a decidable predicate on strings. -/
def nameMatches (r : Option (String → Bool)) (s : Sym) : Bool :=
  match r with
  | none => true
  | some p => s.name.any p

/-- Address filter of `Symbols`: per the source doc comment, if `addr` is not
zero the list is restricted to symbols containing that address. -/
def addrMatches (addr : Nat) (s : Sym) : Bool :=
  addr == 0 || (decide (s.start ≤ addr) && decide (addr ≤ s.endAddr))

/-- Modelled from the spec: `symbols(namePattern?, address?)`.  The Go source
declares only the signature `Symbols(r *regexp.Regexp, addr uint64)`; per the
spec and the source doc comment it restricts the image's symbol table by the
optional name pattern and the optional (non-zero) address, both filters
combining as an intersection, with no ordering beyond address ascending
(inherited from the symbol table). -/
def symbols (f : ObjFile) (r : Option (String → Bool)) (addr : Nat) : List Sym :=
  f.symtab.filter (fun s => nameMatches r s && addrMatches addr s)

/-- Consistency of a symbol with the line table: if `sourceLine` at the
symbol's start returns frames, the innermost frame's function name is one of
the symbol's aliases. -/
def frameConsistent (f : ObjFile) (s : Sym) : Bool :=
  match (f.lineTable s.start).head? with
  | none => true
  | some fr => s.name.contains fr.func

/-- Modelled from the spec: well-formedness of an opened image.  The image is
usable, every symbol satisfies the invariant `Start <= End`, the symbol table
is in ascending address order, and the line table agrees with the symbol
table at each symbol's start address. -/
def ObjFile.wf (f : ObjFile) : Prop :=
  f.usable = true ∧
  (∀ s ∈ f.symtab, s.start ≤ s.endAddr) ∧
  f.symtab.Pairwise (fun a b => a.start ≤ b.start) ∧
  (∀ s ∈ f.symtab, frameConsistent f s = true)

/-- A concrete well-formed image used as a witness: one symbol
`{Name:["main"], Start:0x1000, End:0x1010}` and a line table mapping
`0x1004` (and `0x1000`) to `main.c` frames, as in the spec's scenario. -/
def demoImage : ObjFile where
  name := "demo"
  base := 0
  buildID := "abcd"
  usable := true
  lineTable := fun a =>
    if a = 0x1000 then [⟨"main", "main.c", 40⟩]
    else if a = 0x1004 then [⟨"main", "main.c", 42⟩]
    else []
  symtab := [⟨["main"], "demo", 0x1000, 0x1010⟩]

theorem demoImage_wf : demoImage.wf := by
  refine ⟨rfl, ?_, ?_, ?_⟩ <;> decide

-- Membership in `symbols` implies membership in the symbol table.
theorem mem_symtab_of_mem_symbols {f : ObjFile} {r : Option (String → Bool)}
    {a : Nat} {s : Sym} (hs : s ∈ symbols f r a) : s ∈ f.symtab :=
  (List.mem_filter.mp hs).1

/-- Claim C3: every `Sym` returned by a `Symbols` call on a well-formed image
satisfies the invariant `Start <= End`: the named range is non-empty and
well-ordered. -/
theorem symbols_start_le_end (f : ObjFile) (hwf : f.wf)
    (r : Option (String → Bool)) (a : Nat) (s : Sym)
    (hs : s ∈ symbols f r a) : s.start ≤ s.endAddr :=
  hwf.2.1 s (mem_symtab_of_mem_symbols hs)

/-- Witness for C3: the `main` symbol is returned by a concrete `Symbols`
query on `demoImage` and satisfies `Start <= End`. -/
theorem symbols_start_le_end_witness :
    (⟨["main"], "demo", 0x1000, 0x1010⟩ : Sym).start ≤
      (⟨["main"], "demo", 0x1000, 0x1010⟩ : Sym).endAddr :=
  symbols_start_le_end demoImage demoImage_wf none 0x1004
    ⟨["main"], "demo", 0x1000, 0x1010⟩ (by decide)

/-- Claim C4: `sourceLine` on a usable image returns an empty frame sequence
and no error at every address with no debug information; an error is
returned only when the image itself is unusable. -/
theorem sourceLine_empty_not_error (f : ObjFile) (addr : Nat)
    (husable : f.usable = true) (hnodebug : f.lineTable addr = []) :
    sourceLine f addr = Except.ok [] ∧
      ∀ a e, sourceLine f a = Except.error e → f.usable = false := by
  constructor
  · simp [sourceLine, husable, hnodebug]
  · intro a e h
    cases hu : f.usable with
    | false => rfl
    | true => simp [sourceLine, hu] at h

/-- Witness for C4: on `demoImage`, address `0x2000` has no debug
information and `sourceLine` returns `ok []`, not an error. -/
theorem sourceLine_empty_not_error_witness :
    sourceLine demoImage 0x2000 = Except.ok [] ∧
      ∀ a e, sourceLine demoImage a = Except.error e → demoImage.usable = false :=
  sourceLine_empty_not_error demoImage 0x2000 rfl (by decide)

/-- Claim C9: an `addr` argument of zero means no address restriction at all:
`Symbols(r, 0)` applies only the name filter, so a symbol whose range
contains address 0 is never selected by the address filter alone. -/
theorem symbols_addr_zero (f : ObjFile) (r : Option (String → Bool)) :
    symbols f r 0 = f.symtab.filter (fun s => nameMatches r s) := by
  unfold symbols
  apply List.filter_congr
  intro s _
  simp [addrMatches]

/-- Claim C6: `Symbols(r, addr)` returns exactly the symbols passing the name
filter (some alias matches) intersected with the address filter (range
contains the non-zero address), in ascending address order. -/
theorem symbols_filter_spec (f : ObjFile)
    (hsorted : f.symtab.Pairwise (fun x y => x.start ≤ y.start))
    (r : Option (String → Bool)) (a : Nat) :
    (∀ s, s ∈ symbols f r a ↔
      s ∈ f.symtab ∧ (∀ p, r = some p → s.name.any p = true) ∧
        (a ≠ 0 → s.start ≤ a ∧ a ≤ s.endAddr)) ∧
    (symbols f r a).Pairwise (fun x y => x.start ≤ y.start) := by
  constructor
  · intro s
    rw [symbols, List.mem_filter]
    constructor
    · rintro ⟨hmem, hp⟩
      rw [Bool.and_eq_true] at hp
      obtain ⟨hn, ha⟩ := hp
      refine ⟨hmem, ?_, ?_⟩
      · intro p hr
        subst hr
        simpa [nameMatches] using hn
      · intro ha0
        simpa [addrMatches, ha0] using ha
    · rintro ⟨hmem, hname, haddr⟩
      refine ⟨hmem, ?_⟩
      rw [Bool.and_eq_true]
      constructor
      · cases r with
        | none => rfl
        | some p => simpa [nameMatches] using hname p rfl
      · by_cases h0 : a = 0
        · simp [addrMatches, h0]
        · obtain ⟨h1, h2⟩ := haddr h0
          simp [addrMatches, h1, h2]
  · exact List.Pairwise.sublist (List.filter_sublist _) hsorted

/-- Witness for C6: a concrete `Symbols` query on `demoImage` with both a
name pattern and an address filter, with the sorted-symtab hypothesis
discharged by evaluation. -/
theorem symbols_filter_spec_witness :
    (symbols demoImage (some fun n => n == "main") 0x1004).Pairwise
      (fun x y => x.start ≤ y.start) :=
  (symbols_filter_spec demoImage (by decide) (some fun n => n == "main") 0x1004).2

/-- Claim C1: for every `Sym` returned by `Symbols` on a well-formed opened
image, `SourceLine(s.Start)` does not return an error, and if it returns a
non-empty frame sequence, the innermost frame's function name is one of the
aliases in `s.Name`. -/
theorem symbols_sourceLine_consistent (f : ObjFile) (hwf : f.wf)
    (r : Option (String → Bool)) (a : Nat) (s : Sym)
    (hs : s ∈ symbols f r a) :
    ∃ frames, sourceLine f s.start = Except.ok frames ∧
      ∀ fr, frames.head? = some fr → fr.func ∈ s.name := by
  obtain ⟨hu, -, -, hcons⟩ := hwf
  have hmem := mem_symtab_of_mem_symbols hs
  refine ⟨f.lineTable s.start, ?_, ?_⟩
  · simp [sourceLine, hu]
  · intro fr hfr
    have hc := hcons s hmem
    rw [frameConsistent, hfr] at hc
    simpa using hc

/-- Witness for C1: applying the consistency theorem to the `main` symbol of
`demoImage`, returned by a concrete `Symbols` query. -/
theorem symbols_sourceLine_consistent_witness :
    ∃ frames,
      sourceLine demoImage (⟨["main"], "demo", 0x1000, 0x1010⟩ : Sym).start =
        Except.ok frames ∧
      ∀ fr, frames.head? = some fr →
        fr.func ∈ (⟨["main"], "demo", 0x1000, 0x1010⟩ : Sym).name :=
  symbols_sourceLine_consistent demoImage demoImage_wf none 0
    ⟨["main"], "demo", 0x1000, 0x1010⟩ (by decide)

/-- One entry of a `MappingSources` value (from `plugin.go`: the anonymous
struct `{ Source string; Start uint64 }`, where `Start` is the delta applied
to addresses from this source, representing Merge adjustments). -/
structure SourceEntry where
  source : String
  start : Nat
deriving Repr, DecidableEq

/-- MappingSources map each mapping (keyed by `Mapping.File` or
`Mapping.BuildId`) to the sources of the profile (from `plugin.go`:
`map[string][]struct{...}`); modelled as an insertion-ordered association
list, since the spec makes the order within each value list significant. -/
abbrev MappingSources : Type := List (String × List SourceEntry)

/-- The ordered source-entry list recorded for a mapping key, empty when the
key is absent. -/
def findSources (srcs : MappingSources) (key : String) : List SourceEntry :=
  match srcs.find? (fun kv => kv.1 == key) with
  | some kv => kv.2
  | none => []

/-- Modelled from the spec: the `AddressTranslator` — the address queried
against an ObjectImage is the raw sample address plus the per-source delta,
in wrapping 64-bit arithmetic. -/
def translate (rawAddr delta : Nat) : Nat := (rawAddr + delta) % u64Mod

/-- The first symbol of the image whose range contains the address (used for
the orchestrator's nearest-enclosing-symbol fallback). -/
def enclosingSymbol (f : ObjFile) (addr : Nat) : Option Sym :=
  f.symtab.find? (fun s => decide (s.start ≤ addr) && decide (addr ≤ s.endAddr))

/-- Modelled from the spec: per-address resolution by the orchestrator —
call `sourceLine`; if it yields frames, use them (innermost first); if empty
and symbol information suffices, fall back to the enclosing symbol's name as
a single frame; an unusable image resolves nothing. -/
def resolveAt (f : ObjFile) (addr : Nat) : List Frame :=
  match sourceLine f addr with
  | Except.error _ => []
  | Except.ok frames =>
    if frames.isEmpty then
      match enclosingSymbol f addr with
      | some s => [⟨s.name.headD "", s.file, 0⟩]
      | none => []
    else frames

/-- Modelled from the spec: the orchestrator's delta trial — attempt each
`(origin, delta)` entry in insertion order and accept the first whose
translated address yields a resolvable frame. -/
def tryDeltas (f : ObjFile) (entries : List SourceEntry) (rawAddr : Nat) :
    List Frame :=
  match entries with
  | [] => []
  | e :: rest =>
    let fs := resolveAt f (translate rawAddr e.start)
    if fs.isEmpty then tryDeltas f rest rawAddr else fs

/-- One profile location: a sample address, the key of the mapping it falls
within, and the frames currently attached to it. -/
structure Location where
  address : Nat
  mappingKey : String
  frames : List Frame
deriving Repr, DecidableEq

/-- The part of a profile the orchestrator mutates: its locations. -/
structure Profile where
  locations : List Location
deriving Repr, DecidableEq

/-- Modelled from the spec: symbolization of one location.  In non-forced
mode a location that already carries frame information is left untouched;
otherwise the mapping's image is consulted and the delta trial's frames, if
any, are attached. -/
def symbolizeLoc (force : Bool) (images : String → Option ObjFile)
    (srcs : MappingSources) (loc : Location) : Location :=
  if !force && !loc.frames.isEmpty then loc
  else
    match images loc.mappingKey with
    | none => loc
    | some img =>
      let fs := tryDeltas img (findSources srcs loc.mappingKey) loc.address
      if fs.isEmpty then loc else { loc with frames := fs }

/-- Modelled from the spec: `Symbolize(mode, srcs, prof)` — the Go source
declares only the `Symbolizer` interface; per the spec the orchestrator
rewrites each location of the profile in place.  The mode's force option is
modelled by the `force` flag. -/
def symbolize (force : Bool) (images : String → Option ObjFile)
    (srcs : MappingSources) (p : Profile) : Profile :=
  ⟨p.locations.map (symbolizeLoc force images srcs)⟩

-- In non-forced mode a location that already has frames is left unchanged.
theorem symbolizeLoc_skip (images : String → Option ObjFile)
    (srcs : MappingSources) (l : Location) (h : l.frames.isEmpty = false) :
    symbolizeLoc false images srcs l = l := by
  unfold symbolizeLoc
  simp [h]

-- Symbolizing one location is idempotent in non-forced mode.
theorem symbolizeLoc_idem (images : String → Option ObjFile)
    (srcs : MappingSources) (l : Location) :
    symbolizeLoc false images srcs (symbolizeLoc false images srcs l) =
      symbolizeLoc false images srcs l := by
  cases hf : l.frames.isEmpty with
  | false => rw [symbolizeLoc_skip _ _ _ hf, symbolizeLoc_skip _ _ _ hf]
  | true =>
    cases himg : images l.mappingKey with
    | none =>
      have hfix : symbolizeLoc false images srcs l = l := by
        unfold symbolizeLoc
        simp [hf, himg]
      rw [hfix, hfix]
    | some img =>
      cases hfs :
          (tryDeltas img (findSources srcs l.mappingKey) l.address).isEmpty with
      | true =>
        have hfix : symbolizeLoc false images srcs l = l := by
          unfold symbolizeLoc
          simp [hf, himg, hfs]
        rw [hfix, hfix]
      | false =>
        have hstep : symbolizeLoc false images srcs l =
            { l with frames := tryDeltas img (findSources srcs l.mappingKey) l.address } := by
          unfold symbolizeLoc
          simp [hf, himg, hfs]
        rw [hstep, symbolizeLoc_skip]
        simpa using hfs

/-- Claim C2: `Symbolize` is idempotent in non-forced mode: re-running it with
the same mode, the same images and the same `MappingSources` on the profile
it produced leaves the profile identical — no duplicate frames are appended
to any location. -/
theorem symbolize_idempotent (images : String → Option ObjFile)
    (srcs : MappingSources) (p : Profile) :
    symbolize false images srcs (symbolize false images srcs p) =
      symbolize false images srcs p := by
  unfold symbolize
  simp only [List.map_map, Profile.mk.injEq]
  apply List.map_congr_left
  intro l _
  exact symbolizeLoc_idem images srcs l

/-- Claim C7: address translation is exact addition modulo `2 ^ 64`: the
address the orchestrator queries against the image for a source entry with
delta `d` is `rawAddr + d` in wrapping unsigned 64-bit arithmetic. -/
theorem translate_exact (f : ObjFile) (src : String) (rawAddr d : Nat) :
    translate rawAddr d = (rawAddr + d) % 2 ^ 64 ∧
      tryDeltas f [⟨src, d⟩] rawAddr = resolveAt f ((rawAddr + d) % 2 ^ 64) := by
  refine ⟨rfl, ?_⟩
  show (if (resolveAt f (translate rawAddr d)).isEmpty then tryDeltas f [] rawAddr
      else resolveAt f (translate rawAddr d)) = _
  cases h : (resolveAt f (translate rawAddr d)).isEmpty with
  | true =>
    have h0 : resolveAt f (translate rawAddr d) = [] := by
      simpa using h
    rw [if_pos rfl]
    show ([] : List Frame) = _
    rw [show (rawAddr + d) % 2 ^ 64 = translate rawAddr d from rfl, h0]
  | false =>
    rw [if_neg (by simp)]
    exact rfl

/-- Claim C8: the orchestrator tries each delta of a mapping's source list in
insertion order and accepts the first one whose translated address yields a
resolvable frame: if every entry before `e` resolves to nothing and `e`'s
translated address resolves, the trial returns exactly `e`'s frames. -/
theorem tryDeltas_first_success (f : ObjFile) (rawAddr : Nat)
    (pre post : List SourceEntry) (e : SourceEntry)
    (hpre : ∀ x ∈ pre, resolveAt f (translate rawAddr x.start) = [])
    (he : resolveAt f (translate rawAddr e.start) ≠ []) :
    tryDeltas f (pre ++ e :: post) rawAddr =
      resolveAt f (translate rawAddr e.start) := by
  induction pre with
  | nil =>
    show (if (resolveAt f (translate rawAddr e.start)).isEmpty then _ else _) = _
    rw [if_neg (by simpa using he)]
  | cons x rest ih =>
    have hx : resolveAt f (translate rawAddr x.start) = [] :=
      hpre x (List.mem_cons_self x rest)
    show (if (resolveAt f (translate rawAddr x.start)).isEmpty then
        tryDeltas f (rest ++ e :: post) rawAddr else _) = _
    rw [if_pos (by simp [hx])]
    exact ih (fun y hy => hpre y (List.mem_cons_of_mem x hy))

/-- A second concrete image, mapped so that only the delta `0x2000` makes
its addresses resolvable: the line table and symbol table live at `0x3000`. -/
def shiftedImage : ObjFile where
  name := "shifted"
  base := 0
  buildID := "ef01"
  usable := true
  lineTable := fun a => if a = 0x3000 then [⟨"foo", "foo.c", 7⟩] else []
  symtab := [⟨["foo"], "shifted", 0x3000, 0x3010⟩]

/-- Witness for C8: with two origins of deltas `0` and `0x2000`, the raw
address `0x1000` is resolvable only under the second delta, and the trial
still symbolizes it to the `foo` frame. -/
theorem tryDeltas_first_success_witness :
    tryDeltas shiftedImage [⟨"src1", 0⟩, ⟨"src2", 0x2000⟩] 0x1000 =
      [⟨"foo", "foo.c", 7⟩] :=
  (tryDeltas_first_success shiftedImage 0x1000 [⟨"src1", 0⟩] [] ⟨"src2", 0x2000⟩
    (by decide) (by decide)).trans (by decide)

/-- The byte size the decoder assigns to the instruction at an address; a
decoded unit always occupies at least one byte. -/
def instSize (d : Nat → Nat) (a : Nat) : Nat := max (d a) 1

/-- The best-effort source attribution of the instruction at an address:
`sourceLine` is consulted, and absent information (lookup error or no
frames) leaves function, file and line empty rather than failing. -/
def annotFields (f : ObjFile) (a : Nat) : String × String × Int :=
  match sourceLine f a with
  | Except.error _ => ("", "", 0)
  | Except.ok frames =>
    match frames.head? with
    | none => ("", "", 0)
    | some fr => (fr.func, fr.file, fr.line)

/-- The disassembled instruction at an address, annotated best-effort. -/
def annotate (f : ObjFile) (txt : String) (a : Nat) : Inst :=
  ⟨a, txt, (annotFields f a).1, (annotFields f a).2.1, (annotFields f a).2.2⟩

/-- Modelled from the spec: `Disasm(file, start, end)` over one opened
image — the Go source declares only the `ObjTool` interface.  Per the spec,
instructions are decoded one after another from `start`, each occupying
`instSize` bytes, stopping before `end`; `d` is the decoder's size function
and `txt` its text function. -/
def disasmFrom (f : ObjFile) (d : Nat → Nat) (txt : Nat → String)
    (a b : Nat) : List Inst :=
  if _h : a < b then
    annotate f (txt a) a :: disasmFrom f d txt (a + instSize d a) b
  else []
termination_by b - a
decreasing_by
  have h1 : 1 ≤ instSize d a := Nat.le_max_right (d a) 1
  omega

/-- Modelled from the spec: the `ObjTool.Disasm` entry point fails only when
the image cannot be opened; it never fails for missing attribution. -/
def Disasm (images : String → Option ObjFile) (d : Nat → Nat)
    (txt : Nat → String) (file : String) (a b : Nat) :
    Except String (List Inst) :=
  match images file with
  | none => Except.error "cannot open image"
  | some f => Except.ok (disasmFrom f d txt a b)

-- Every produced instruction's address lies in the requested range.
theorem disasmFrom_mem_bounds (f : ObjFile) (d : Nat → Nat)
    (txt : Nat → String) (a b : Nat) (i : Inst)
    (hi : i ∈ disasmFrom f d txt a b) : a ≤ i.addr ∧ i.addr < b := by
  rw [disasmFrom] at hi
  split at hi
  case isTrue h =>
    rcases List.mem_cons.mp hi with h1 | h2
    · subst h1
      exact ⟨Nat.le_refl a, h⟩
    · have hrec := disasmFrom_mem_bounds f d txt (a + instSize d a) b i h2
      have h1 : 1 ≤ instSize d a := Nat.le_max_right (d a) 1
      exact ⟨by omega, hrec.2⟩
  case isFalse h => simp at hi
termination_by b - a
decreasing_by
  have h1 : 1 ≤ instSize d a := Nat.le_max_right (d a) 1
  omega

-- Every produced instruction is the annotated decode at its own address.
theorem disasmFrom_mem_annot (f : ObjFile) (d : Nat → Nat)
    (txt : Nat → String) (a b : Nat) (i : Inst)
    (hi : i ∈ disasmFrom f d txt a b) : i = annotate f (txt i.addr) i.addr := by
  rw [disasmFrom] at hi
  split at hi
  case isTrue h =>
    rcases List.mem_cons.mp hi with h1 | h2
    · subst h1
      rfl
    · exact disasmFrom_mem_annot f d txt (a + instSize d a) b i h2
  case isFalse h => simp at hi
termination_by b - a
decreasing_by
  have h1 : 1 ≤ instSize d a := Nat.le_max_right (d a) 1
  omega

-- Instruction addresses are produced in strictly increasing order.
theorem disasmFrom_pairwise (f : ObjFile) (d : Nat → Nat)
    (txt : Nat → String) (a b : Nat) :
    ((disasmFrom f d txt a b).map Inst.addr).Pairwise (fun x y => x < y) := by
  rw [disasmFrom]
  split
  case isTrue h =>
    rw [List.map_cons, List.pairwise_cons]
    constructor
    · intro y hy
      obtain ⟨i, hi, rfl⟩ := List.mem_map.mp hy
      have hb := disasmFrom_mem_bounds f d txt (a + instSize d a) b i hi
      have h1 : 1 ≤ instSize d a := Nat.le_max_right (d a) 1
      show a < i.addr
      omega
    · exact disasmFrom_pairwise f d txt (a + instSize d a) b
  case isFalse h => simp
termination_by b - a
decreasing_by
  have h1 : 1 ≤ instSize d a := Nat.le_max_right (d a) 1
  omega

-- Every address of the requested range is covered by some instruction.
theorem disasmFrom_covers (f : ObjFile) (d : Nat → Nat) (txt : Nat → String)
    (a b x : Nat) (hax : a ≤ x) (hxb : x < b) :
    ∃ i ∈ disasmFrom f d txt a b,
      i.addr ≤ x ∧ x < i.addr + instSize d i.addr := by
  rw [disasmFrom, dif_pos (Nat.lt_of_le_of_lt hax hxb)]
  by_cases hx : x < a + instSize d a
  · exact ⟨annotate f (txt a) a, List.mem_cons_self _ _, hax, hx⟩
  · push_neg at hx
    obtain ⟨i, hi, h1, h2⟩ :=
      disasmFrom_covers f d txt (a + instSize d a) b x hx hxb
    exact ⟨i, List.mem_cons_of_mem _ hi, h1, h2⟩
termination_by b - a
decreasing_by
  have h1 : 1 ≤ instSize d a := Nat.le_max_right (d a) 1
  omega

-- Two instructions whose extents contain a common address coincide.
theorem disasmFrom_no_overlap (f : ObjFile) (d : Nat → Nat)
    (txt : Nat → String) (a b : Nat) (i j : Inst)
    (hi : i ∈ disasmFrom f d txt a b) (hj : j ∈ disasmFrom f d txt a b)
    (x : Nat) (hi1 : i.addr ≤ x) (hi2 : x < i.addr + instSize d i.addr)
    (hj1 : j.addr ≤ x) (hj2 : x < j.addr + instSize d j.addr) :
    i.addr = j.addr := by
  rw [disasmFrom] at hi hj
  split at hi
  case isTrue h =>
    rw [dif_pos h] at hj
    rcases List.mem_cons.mp hi with hi' | hi' <;>
      rcases List.mem_cons.mp hj with hj' | hj'
    · subst hi'
      subst hj'
      rfl
    · have hb := disasmFrom_mem_bounds f d txt (a + instSize d a) b j hj'
      have hia : i.addr = a := by rw [hi']; rfl
      rw [hia] at hi1 hi2 ⊢
      omega
    · have hb := disasmFrom_mem_bounds f d txt (a + instSize d a) b i hi'
      have hja : j.addr = a := by rw [hj']; rfl
      rw [hja] at hj1 hj2 ⊢
      omega
    · exact disasmFrom_no_overlap f d txt (a + instSize d a) b i j hi' hj' x
        hi1 hi2 hj1 hj2
  case isFalse h =>
    simp at hi
termination_by b - a
decreasing_by
  have h1 : 1 ≤ instSize d a := Nat.le_max_right (d a) 1
  omega

-- An instruction at an address with no line-table entry carries empty
-- attribution fields.
theorem annotate_empty (f : ObjFile) (txt : String) (a : Nat)
    (h : f.lineTable a = []) :
    (annotate f txt a).function = "" ∧ (annotate f txt a).file = "" ∧
      (annotate f txt a).line = 0 := by
  unfold annotate annotFields sourceLine
  cases hu : f.usable with
  | false => simp
  | true => simp [h]

/-- Claim C5: for every image, decoder and range `[A, B)`, the disassembly's
instruction addresses are strictly increasing; every address of the range is
covered by exactly one instruction extent (no gaps, no overlaps); and an
instruction whose address has no line information carries empty
function/file/line fields instead of failing the call. -/
theorem disasm_covers_range (f : ObjFile) (d : Nat → Nat)
    (txt : Nat → String) (a b : Nat) :
    ((disasmFrom f d txt a b).map Inst.addr).Pairwise (fun x y => x < y) ∧
    (∀ x, a ≤ x → x < b → ∃ i ∈ disasmFrom f d txt a b,
        i.addr ≤ x ∧ x < i.addr + instSize d i.addr) ∧
    (∀ i ∈ disasmFrom f d txt a b, ∀ j ∈ disasmFrom f d txt a b, ∀ x,
        i.addr ≤ x → x < i.addr + instSize d i.addr → j.addr ≤ x →
        x < j.addr + instSize d j.addr → i.addr = j.addr) ∧
    (∀ i ∈ disasmFrom f d txt a b, f.lineTable i.addr = [] →
        i.function = "" ∧ i.file = "" ∧ i.line = 0) := by
  refine ⟨disasmFrom_pairwise f d txt a b, ?_, ?_, ?_⟩
  · intro x hax hxb
    exact disasmFrom_covers f d txt a b x hax hxb
  · intro i hi j hj x hi1 hi2 hj1 hj2
    exact disasmFrom_no_overlap f d txt a b i j hi hj x hi1 hi2 hj1 hj2
  · intro i hi hline
    have hann := disasmFrom_mem_annot f d txt a b i hi
    rw [hann]
    exact annotate_empty f (txt i.addr) i.addr hline

/-- An HTTP request as seen by the wrapper: only its origin host matters for
the localhost check. -/
structure HTTPRequest where
  originHost : String
deriving Repr, DecidableEq

/-- The outcome of serving a request: either the wrapped pprof handler's
response body, or a rejection that never reaches the handler. -/
inductive HTTPOutcome where
  | served (body : String)
  | rejected
deriving Repr, DecidableEq

/-- An HTTP handler, as in Go's `http.Handler`. -/
abbrev Handler : Type := HTTPRequest → HTTPOutcome

/-- Whether a request originates from the localhost. -/
def isLocalhostOrigin (h : String) : Bool :=
  h == "localhost" || h == "127.0.0.1" || h == "::1"

/-- Modelled from the spec: the default wrapper substituted when
`Options.HTTPWrapper` is nil — the Go source carries only the doc comment
("a default wrapper will be used that disallows all requests except from
the localhost"); the wrapper's body lives outside this file. -/
def defaultWrapper (next : Handler) : Handler :=
  fun req =>
    if isLocalhostOrigin req.originHost then next req else HTTPOutcome.rejected

/-- The `HTTPWrapper` field of `Options` (from `plugin.go`:
`HTTPWrapper func(http.Handler) http.Handler`, nil modelled as `none`; the
remaining plugin fields are interfaces irrelevant to this claim). -/
structure Options where
  httpWrapper : Option (Handler → Handler)

/-- Modelled from the spec: the wrapper the driver actually invokes — the
supplied one, or the localhost-only default when the field is nil. -/
def effectiveWrapper (o : Options) : Handler → Handler :=
  match o.httpWrapper with
  | some w => w
  | none => defaultWrapper

/-- Claim C10: when `Options.HTTPWrapper` is nil the driver substitutes the
default wrapper, which rejects every request whose origin is not localhost
and passes requests from localhost through to the wrapped pprof handler. -/
theorem httpWrapper_nil_localhost_only (o : Options)
    (hnil : o.httpWrapper = none) (next : Handler) (req : HTTPRequest) :
    effectiveWrapper o next req =
      if isLocalhostOrigin req.originHost then next req
      else HTTPOutcome.rejected := by
  unfold effectiveWrapper
  rw [hnil]
  rfl

/-- Witness for C10: with a nil wrapper, a request from `evil.example` is
rejected before it reaches the handler. -/
theorem httpWrapper_nil_localhost_only_witness :
    effectiveWrapper ⟨none⟩ (fun _ => HTTPOutcome.served "profile")
        ⟨"evil.example"⟩ = HTTPOutcome.rejected :=
  (httpWrapper_nil_localhost_only ⟨none⟩ rfl
      (fun _ => HTTPOutcome.served "profile") ⟨"evil.example"⟩).trans (by decide)

end Pprof
